import Mathlib

/-!
Shallow embedding of the quortextt game core (src/game.rs and src/legality.rs)
together with theorems settling the specification claims about the tile
algebra, flow recomputation, the move-legality validator and action
application.  Machine integers of the source (i32 positions, u8 rotations,
usize players) are modelled as Int, Fin 6 and Nat; none of the embedded
operations can overflow their source types on the values reachable here.
-/

namespace Flows

/-- Rotation(pub u8), values 0..5; all arithmetic in the source is mod 6,
modelled by Fin 6 (src/game.rs, struct Rotation). -/
structure Rotation where
  val : Fin 6
  deriving DecidableEq, Repr

/-- Rotation::reversed: Self((6 - self.0) % 6). -/
def Rotation.reversed (r : Rotation) : Rotation :=
  ⟨⟨(6 - r.val.val) % 6, Nat.mod_lt _ (by decide)⟩⟩

/-- impl Add for Rotation: Self((self.0 + rhs.0) % 6); Fin 6 addition wraps mod 6. -/
def Rotation.add (a b : Rotation) : Rotation :=
  ⟨a.val + b.val⟩

/-- TilePos { row: i32, col: i32 }. -/
structure TilePos where
  row : Int
  col : Int
  deriving DecidableEq, Repr

/-- TileVec { row: i32, col: i32 }. -/
structure TileVec where
  row : Int
  col : Int
  deriving DecidableEq, Repr

/-- The derived Ord on TilePos: lexicographic on (row, col), as a Bool
strict-less-than test (used by canonical_node). -/
def TilePos.ltb (a b : TilePos) : Bool :=
  decide (a.row < b.row) || (decide (a.row = b.row) && decide (a.col < b.col))

instance : HAdd TilePos TileVec TilePos :=
  ⟨fun p v => ⟨p.row + v.row, p.col + v.col⟩⟩

instance : HSub TilePos TilePos TileVec :=
  ⟨fun a b => ⟨a.row - b.row, a.col - b.col⟩⟩

instance : Neg TileVec :=
  ⟨fun v => ⟨-v.row, -v.col⟩⟩

/-- The six precomputed rotation matrices of TileVec::rotate, as
(dr_r, dr_c, dc_r, dc_c) tuples indexed by the rotation. -/
def rotMatrices : Fin 6 → Int × Int × Int × Int :=
  ![(1, 0, 0, 1), (1, -1, 1, 0), (0, -1, 1, -1), (-1, 0, 0, -1), (-1, 1, -1, 0), (0, 1, -1, 1)]

/-- TileVec::rotate. -/
def TileVec.rotate (v : TileVec) (rotation : Rotation) : TileVec :=
  let m := rotMatrices rotation.val
  ⟨m.1 * v.row + m.2.1 * v.col, m.2.2.1 * v.row + m.2.2.2 * v.col⟩

/-- enum Direction, discriminants 0..5. -/
inductive Direction where
  | SouthWest
  | West
  | NorthWest
  | NorthEast
  | East
  | SouthEast
  deriving DecidableEq, Repr

instance : Fintype Direction :=
  ⟨⟨([Direction.SouthWest, .West, .NorthWest, .NorthEast, .East, .SouthEast] :
      List Direction), by decide⟩,
   fun d => by cases d <;> decide⟩

/-- The discriminant of a Direction (its `as u8` / `as usize` value). -/
def Direction.num : Direction → Fin 6
  | .SouthWest => 0
  | .West => 1
  | .NorthWest => 2
  | .NorthEast => 3
  | .East => 4
  | .SouthEast => 5

/-- Direction::from_rotation (the source panics on values over 5, which Fin 6
excludes). -/
def Direction.from_rotation (r : Rotation) : Direction :=
  ![.SouthWest, .West, .NorthWest, .NorthEast, .East, .SouthEast] r.val

/-- Direction::rotate: from_rotation(Rotation((self as u8 + rotation.0) % 6)). -/
def Direction.rotate (d : Direction) (rotation : Rotation) : Direction :=
  Direction.from_rotation ⟨d.num + rotation.val⟩

/-- Direction::reversed: rotate by 3. -/
def Direction.reversed (d : Direction) : Direction :=
  d.rotate ⟨3⟩

/-- Direction::all_directions, in source order. -/
def Direction.all_directions : List Direction :=
  [.SouthWest, .West, .NorthWest, .NorthEast, .East, .SouthEast]

/-- Direction::tile_vec: (row delta, column delta) towards the adjacent tile. -/
def Direction.tile_vec : Direction → TileVec
  | .SouthWest => ⟨-1, -1⟩
  | .West => ⟨0, -1⟩
  | .NorthWest => ⟨1, 0⟩
  | .NorthEast => ⟨1, 1⟩
  | .East => ⟨0, 1⟩
  | .SouthEast => ⟨-1, 0⟩

/-- enum TileType. -/
inductive TileType where
  | NoSharps
  | OneSharp
  | TwoSharps
  | ThreeSharps
  deriving DecidableEq, Repr

/-- The four fixed exit lookup tables of TileType::exit_from_entrance. -/
def TileType.exitsTable : TileType → Fin 6 → Fin 6
  | .NoSharps => ![2, 4, 0, 5, 1, 3]
  | .OneSharp => ![5, 3, 4, 1, 2, 0]
  | .TwoSharps => ![5, 4, 3, 2, 1, 0]
  | .ThreeSharps => ![5, 2, 1, 4, 3, 0]

/-- TileType::exit_from_entrance: Direction::from_rotation(Rotation(exits[entrance as usize])). -/
def TileType.exit_from_entrance (t : TileType) (entrance : Direction) : Direction :=
  Direction.from_rotation ⟨t.exitsTable entrance.num⟩

/-- TileType::all_flows: the entrances are probed in the fixed order
[0, 2, 3, 5, 1, 4] and a pair is kept when entrance is strictly below exit in
the derived discriminant order.  The source collects into a fixed array of
three pairs; the list produced here is proved to have length three in the
claim C6 theorem. -/
def TileType.all_flows (t : TileType) : List (Direction × Direction) :=
  [(0 : Fin 6), 2, 3, 5, 1, 4].filterMap fun i =>
    let entrance := Direction.from_rotation ⟨i⟩
    let exit := t.exit_from_entrance entrance
    if entrance.num < exit.num then some (entrance, exit) else none

/-- pub type Player = usize. -/
abbrev Player := Nat

/-- struct PlacedTile: type, rotation, and the cached flow colour per edge
direction ([Option<Player>; 6], modelled as a function from Direction). -/
structure PlacedTile where
  type_ : TileType
  rotation : Rotation
  flow_cache : Direction → Option Player

instance : DecidableEq (Direction → Option Player) :=
  Fintype.decidablePiFintype

instance : DecidableEq PlacedTile := fun a b =>
  decidable_of_iff
    (a.type_ = b.type_ ∧ a.rotation = b.rotation ∧ a.flow_cache = b.flow_cache)
    (by cases a; cases b; simp [PlacedTile.mk.injEq])

/-- PlacedTile::new: empty flow cache. -/
def PlacedTile.new (type_ : TileType) (rotation : Rotation) : PlacedTile :=
  ⟨type_, rotation, fun _ => none⟩

/-- PlacedTile::exit_from_entrance: unrotate the entrance, use the base
permutation, rotate the exit back. -/
def PlacedTile.exit_from_entrance (p : PlacedTile) (entrance : Direction) : Direction :=
  (p.type_.exit_from_entrance (entrance.rotate p.rotation.reversed)).rotate p.rotation

/-- PlacedTile::all_flows: the base pairs of the type, each rotated. -/
def PlacedTile.all_flows (p : PlacedTile) : List (Direction × Direction) :=
  p.type_.all_flows.map fun pr => (pr.1.rotate p.rotation, pr.2.rotate p.rotation)

/-- PlacedTile::set_flow_cache. -/
def PlacedTile.set_flow_cache (p : PlacedTile) (direction : Direction)
    (player : Option Player) : PlacedTile :=
  ⟨p.type_, p.rotation, fun d => if d = direction then player else p.flow_cache d⟩

/-- enum Tile. -/
inductive Tile where
  | NotOnBoard
  | Empty
  | Placed (tile : PlacedTile)
  deriving DecidableEq

/-- enum AdjacentTile. -/
inductive AdjacentTile where
  | BoardEdge (direction : Direction)
  | Tile (pos : TilePos)
  deriving DecidableEq

-- enum GameViewer is UI-facing and not needed by the claims.

/-- struct GameSettings. -/
structure GameSettings where
  num_players : Nat
  version : Nat
  deriving DecidableEq, Repr

/-- enum Action. -/
inductive Action where
  | InitializeGame (settings : GameSettings)
  | DrawTile (player : Player) (tile : TileType)
  | RevealTile (player : Player) (tile : TileType)
  | PlaceTile (player : Player) (tile : TileType) (pos : TilePos) (rotation : Rotation)
  deriving DecidableEq, Repr

/-- enum GameOutcome. -/
inductive GameOutcome where
  | Victory (players : List Player)
  deriving DecidableEq, Repr

/-- struct Game.  The 7x7 board array is modelled as a total function on
Nat indices; every access in the source goes through the bounds-checked
tile/tile_mut accessors (or loops over 0..7), so indices past 6 are never
read or written.  sides is the [Option<Player>; 6] array, remaining_tiles
the [u8; 4] array indexed by number of sharps. -/
structure Game where
  settings : GameSettings
  sides : Fin 6 → Option Player
  remaining_tiles : Fin 4 → Nat
  tiles_in_hand : List (Option TileType)
  board : Nat → Nat → Tile
  action_history : List Action
  current_player : Player
  outcome : Option GameOutcome

/-- remaining_tiles is indexed by `tile as usize`, the discriminant. -/
def TileType.num : TileType → Fin 4
  | .NoSharps => 0
  | .OneSharp => 1
  | .TwoSharps => 2
  | .ThreeSharps => 3

/-- The bounds test of Game::tile / Game::tile_mut:
pos.row < 0 || pos.col < 0 || pos.row >= 7 || pos.col >= 7 is the failure
case; this is the success predicate. -/
def TilePos.inBounds (pos : TilePos) : Prop :=
  0 ≤ pos.row ∧ pos.row < 7 ∧ 0 ≤ pos.col ∧ pos.col < 7

instance (pos : TilePos) : Decidable pos.inBounds := by
  unfold TilePos.inBounds
  infer_instance

/-- Game::tile: out-of-range positions return board[6][0], an arbitrary
NotOnBoard position on every board the source builds. -/
def Game.tile (g : Game) (pos : TilePos) : Tile :=
  if pos.inBounds then g.board pos.row.toNat pos.col.toNat
  else g.board 6 0

/-- Game::tile_mut returns None for out-of-range positions, Some of the cell
otherwise; reads through it are modelled by this Option-valued accessor. -/
def Game.tileAt? (g : Game) (pos : TilePos) : Option Tile :=
  if pos.inBounds then some (g.board pos.row.toNat pos.col.toNat)
  else none

/-- A write through Game::tile_mut: out-of-range writes have no target (the
callers unwrap, which cannot be reached on the boards the claims evaluate)
and are modelled as leaving the game unchanged. -/
def Game.setTile (g : Game) (pos : TilePos) (t : Tile) : Game :=
  if pos.inBounds then
    { g with board := fun i j =>
        if i = pos.row.toNat ∧ j = pos.col.toNat then t else g.board i j }
  else g

/-- Game::center_pos. -/
def Game.center_pos (_g : Game) : TilePos := ⟨3, 3⟩

/-- Game::num_players. -/
def Game.num_players (g : Game) : Nat := g.settings.num_players

/-- Game::adjacent_tile. -/
def Game.adjacent_tile (g : Game) (pos : TilePos) (direction : Direction) : AdjacentTile :=
  if g.tile (pos + direction.tile_vec) = Tile.NotOnBoard then
    AdjacentTile.BoardEdge direction
  else
    AdjacentTile.Tile (pos + direction.tile_vec)

/-- Game::get_neighbor_pos. -/
def Game.get_neighbor_pos (g : Game) (pos : TilePos) (direction : Direction) : Option TilePos :=
  let neighbor_pos := pos + direction.tile_vec
  if g.tile neighbor_pos = Tile.NotOnBoard then none else some neighbor_pos

/-- Game::get_direction_towards: the first direction whose tile_vec equals
to - from (the parameter names src/dst replace the reserved word from). -/
def Game.get_direction_towards (_g : Game) (src dst : TilePos) : Option Direction :=
  Direction.all_directions.find? fun dir => decide (dir.tile_vec = dst - src)

/-- The fixed template of the seven (hex, outward direction) boundary slots
of the bottom side in Game::edges_on_board_edge. -/
def bottomEdges : List (TilePos × Direction) :=
  [(⟨0, 0⟩, .SouthEast), (⟨0, 1⟩, .SouthWest), (⟨0, 1⟩, .SouthEast),
   (⟨0, 2⟩, .SouthWest), (⟨0, 2⟩, .SouthEast), (⟨0, 3⟩, .SouthWest),
   (⟨0, 3⟩, .SouthEast)]

/-- Game::edges_on_board_edge: the bottom template rotated about the center. -/
def Game.edges_on_board_edge (g : Game) (rotation : Rotation) : List (TilePos × Direction) :=
  let center := g.center_pos
  bottomEdges.map fun pr =>
    (center + (pr.1 - center).rotate rotation, pr.2.rotate rotation)

/-- The clipped corners filled with NotOnBoard by Game::new: the two loops
mark board[6-i][j] and board[i][6-j] for i < 3, j < 3 - i, i.e. rows 4..6
with col <= row - 4 and rows 0..2 with col >= row + 4. -/
def notOnBoardCell (i j : Nat) : Prop :=
  (4 ≤ i ∧ j + 4 ≤ i) ∨ (i ≤ 2 ∧ i + 4 ≤ j)

instance (i j : Nat) : Decidable (notOnBoardCell i j) := by
  unfold notOnBoardCell
  infer_instance

/-- Game::new.  The source panics on version != 0 or a player count outside
2..=3; the claims only instantiate it with valid settings. -/
def Game.new (settings : GameSettings) : Game where
  settings := settings
  sides := fun s =>
    if s = 0 then some 0
    else if s = 2 then some 1
    else if s = 4 ∧ settings.num_players = 3 then some 2
    else none
  remaining_tiles := fun _ => 10
  tiles_in_hand := List.replicate settings.num_players none
  board := fun i j => if notOnBoardCell i j then Tile.NotOnBoard else Tile.Empty
  action_history := [Action.InitializeGame settings]
  current_player := 0
  outcome := none

/-- Game::floodfill_path, with fuel for the loop.  Each iteration follows a
placed tile's connection and advances across the exit, so a run from a
boundary slot visits each of the at most 6 * 49 (pos, dir) states at most
once; floodFuel below exceeds that bound, and every theorem about the flood
is fuel-uniform. -/
def Game.floodfill_path (player : Player) :
    Nat → TilePos → Direction → Game → Game
  | 0, _, _, g => g
  | fuel + 1, pos, dir, g =>
    match g.tileAt? pos with
    | none | some Tile.NotOnBoard | some Tile.Empty => g
    | some (Tile.Placed tile) =>
      let exit_dir := tile.exit_from_entrance dir
      let tile' := (tile.set_flow_cache dir (some player)).set_flow_cache exit_dir (some player)
      let g' := g.setTile pos (Tile.Placed tile')
      match g'.adjacent_tile pos exit_dir with
      | AdjacentTile.BoardEdge _ => g'
      | AdjacentTile.Tile next_pos =>
        Game.floodfill_path player fuel next_pos exit_dir.reversed g'

def floodFuel : Nat := 300

/-- The clearing loop at the top of Game::recompute_flows.  In the source,
`if let Tile::Placed(mut tile) = self.board[i][j] { tile.flow_cache = [None; 6] }`
pattern-matches the Copy type Tile by value, so `tile` is a fresh copy of the
placed tile and the assignment mutates only that copy: the loop leaves the
board unchanged.  The faithful translation is therefore the identity. -/
def Game.clear_flow_caches_loop (g : Game) : Game := g

/-- The body of the side loop of Game::recompute_flows for one side index. -/
def Game.flood_side (g : Game) (side : Fin 6) : Game :=
  match g.sides side with
  | none => g
  | some player =>
    (g.edges_on_board_edge ⟨side⟩).foldl
      (fun acc pr => Game.floodfill_path player floodFuel pr.1 pr.2 acc) g

/-- Rust Vec::sort on winners (Nat ascending), as insertion sort. -/
def sortedInsert (x : Nat) : List Nat → List Nat
  | [] => [x]
  | y :: ys => if x ≤ y then x :: y :: ys else y :: sortedInsert x ys

def sortNat : List Nat → List Nat
  | [] => []
  | x :: xs => sortedInsert x (sortNat xs)

/-- Rust Vec::dedup: remove consecutive duplicates. -/
def dedupConsec : List Nat → List Nat
  | [] => []
  | [x] => [x]
  | x :: y :: ys => if x = y then dedupConsec (y :: ys) else x :: dedupConsec (y :: ys)

/-- The winners accumulated by Game::update_outcome before sort/dedup: for
every owned side, every boundary slot of the opposite side whose placed tile
carries that player's flow pushes the player (and the teammate owning the
opposite side, if any). -/
def Game.collect_winners (g : Game) : List Player :=
  (List.finRange 6).foldl
    (fun acc side =>
      match g.sides side with
      | none => acc
      | some player =>
        let opposite_side : Fin 6 := ⟨(side.val + 3) % 6, Nat.mod_lt _ (by decide)⟩
        (g.edges_on_board_edge ⟨opposite_side⟩).foldl
          (fun acc2 pr =>
            match g.tile pr.1 with
            | Tile.Placed tile =>
              if tile.flow_cache pr.2 = some player then
                acc2 ++ [player] ++
                  (match g.sides opposite_side with
                   | some teammate => [teammate]
                   | none => [])
              else acc2
            | _ => acc2)
          acc)
    []

/-- Game::update_outcome: sticky once set; otherwise record the sorted,
deduplicated winners when non-empty. -/
def Game.update_outcome (g : Game) : Game :=
  if g.outcome.isSome then g
  else
    let winners := g.collect_winners
    if winners.isEmpty then g
    else { g with outcome := some (GameOutcome.Victory (dedupConsec (sortNat winners))) }

/-- Game::recompute_flows: the (ineffective) clearing loop, then a floodfill
from every boundary slot of every owned side, then update_outcome. -/
def Game.flood_sides_list (g : Game) (sides : List (Fin 6)) : Game :=
  sides.foldl Game.flood_side g

def Game.recompute_flows (g : Game) : Game :=
  (g.clear_flow_caches_loop.flood_sides_list (List.finRange 6)).update_outcome

/-!  The legality module, src/legality.rs. -/

/-- type Connection = (Direction, Direction). -/
abbrev Connection := Direction × Direction

/-- type Node = (TilePos, TilePos, Direction): an inter-hex edge, named by
the canonically smaller hex, the larger hex, and the direction from the
smaller towards the larger. -/
structure Node where
  a : TilePos
  b : TilePos
  dir : Direction
  deriving DecidableEq, Repr

/-- The smaller-direction-first normalization applied to connection pairs
throughout legality.rs (if d1 > d2 then swap, in discriminant order). -/
def normalize_conn (c : Connection) : Connection :=
  if c.2.num < c.1.num then (c.2, c.1) else c

def tile_types_list : List TileType :=
  [.NoSharps, .OneSharp, .TwoSharps, .ThreeSharps]

/-- is_satisfiable: an empty demand set is satisfiable, otherwise some one of
the 24 tile configurations must provide every demanded pair.  The demand
sets of the source are HashSets consulted only through subset tests; they
are modelled as lists consulted only through membership. -/
def is_satisfiable (demands : List Connection) : Bool :=
  if demands.isEmpty then true
  else
    tile_types_list.any fun tile_type =>
      (List.finRange 6).any fun i =>
        let placed_tile := PlacedTile.new tile_type ⟨i⟩
        let provided := placed_tile.all_flows.map normalize_conn
        demands.all fun d => decide (d ∈ provided)

/-- canonical_node: direction towards the other hex, with the lexicographically
smaller hex first.  The source unwraps the direction lookup; it is only ever
called on adjacent hexes, where the lookup succeeds, so the default branch is
unreachable. -/
def canonical_node (pos1 pos2 : TilePos) (g : Game) : Node :=
  match g.get_direction_towards pos1 pos2 with
  | some dir =>
    if TilePos.ltb pos1 pos2 then ⟨pos1, pos2, dir⟩ else ⟨pos2, pos1, dir.reversed⟩
  | none => ⟨pos1, pos2, Direction.SouthWest⟩

/-- get_player_sides (start, goal); the source panics on players past 2 and
is only called with players below num_players <= 3. -/
def get_player_sides (player : Player) : Rotation × Rotation :=
  match player with
  | 0 => (⟨0⟩, ⟨3⟩)
  | 1 => (⟨2⟩, ⟨5⟩)
  | 2 => (⟨4⟩, ⟨1⟩)
  | _ => (⟨0⟩, ⟨3⟩)

/-- The push of one starting node in the queue-initialization loop of
find_potential_path_for_team: when the step out of the start hex in exit_dir
reaches a neighbor whose edge is neither claimed nor visited, enqueue the
singleton path and mark the edge visited. -/
def enqueue_start_node (g : Game) (claimed_edges : List Node) (start_pos : TilePos)
    (qv : List (List Node × TilePos) × List Node)
    (exit_dir : Direction) : List (List Node × TilePos) × List Node :=
  match g.get_neighbor_pos start_pos exit_dir with
  | some neighbor_pos =>
    let start_node := canonical_node start_pos neighbor_pos g
    if start_node ∈ claimed_edges ∨ start_node ∈ qv.2 then qv
    else (qv.1 ++ [([start_node], neighbor_pos)], start_node :: qv.2)
  | none => qv

/-- One start slot of the queue-initialization loop of
find_potential_path_for_team, threading (queue, visited): a Placed start hex
forces the single exit of the tile, an Empty one admits all six. -/
def init_slot (g : Game) (claimed_edges : List Node)
    (qv : List (List Node × TilePos) × List Node)
    (slot : TilePos × Direction) : List (List Node × TilePos) × List Node :=
  let start_pos := slot.1
  let entry_dir := slot.2.reversed
  match g.tile start_pos with
  | Tile.Placed placed_tile =>
    enqueue_start_node g claimed_edges start_pos qv
      (placed_tile.exit_from_entrance entry_dir)
  | Tile.Empty =>
    Direction.all_directions.foldl (enqueue_start_node g claimed_edges start_pos) qv
  | Tile.NotOnBoard => qv

/-- One direction of the Empty-hex neighbor exploration of the BFS,
threading (queue, visited).  The entry-direction lookup towards the previous
hex is unwrapped by the source and always succeeds (the hexes are adjacent),
so the default branch is unreachable. -/
def explore_empty_dir (g : Game) (claimed_edges : List Node)
    (internal_demands : TilePos → List Connection)
    (path : List Node) (current_pos prev_pos : TilePos)
    (qv : List (List Node × TilePos) × List Node)
    (exit_dir : Direction) : List (List Node × TilePos) × List Node :=
  match g.get_neighbor_pos current_pos exit_dir with
  | some next_pos =>
    if next_pos = prev_pos then qv
    else
      let next_node := canonical_node current_pos next_pos g
      if next_node ∈ qv.2 ∨ next_node ∈ claimed_edges then qv
      else
        match g.get_direction_towards current_pos prev_pos with
        | some entry_dir =>
          let all_demands :=
            normalize_conn (entry_dir, exit_dir) :: internal_demands current_pos
          if ¬ is_satisfiable all_demands then qv
          else (qv.1 ++ [(path ++ [next_node], next_pos)], next_node :: qv.2)
        | none => qv
  | none => qv

/-- The goal test of one BFS iteration (step 3 of the source): the popped tip
must be a goal hex whose forced exit (Placed) lands on a goal slot, or an
Empty goal hex where some goal slot gives a satisfiable demand set. -/
def bfs_goal_hit (g : Game) (internal_demands : TilePos → List Connection)
    (goal_edges : List (TilePos × Direction)) (goal_hexes : List TilePos)
    (current_pos prev_pos : TilePos) : Bool :=
  decide (current_pos ∈ goal_hexes) &&
    match g.tile current_pos, g.get_direction_towards current_pos prev_pos with
    | Tile.Placed placed_tile, some entry_dir =>
      decide ((current_pos, placed_tile.exit_from_entrance entry_dir) ∈ goal_edges)
    | Tile.Empty, some entry_dir =>
      (goal_edges.filter fun pr => pr.1 = current_pos).any fun pr =>
        is_satisfiable
          (normalize_conn (entry_dir, pr.2) :: internal_demands current_pos)
    | _, _ => false

/-- The neighbor exploration of one BFS iteration (step 4 of the source),
returning the new (queue, visited) pair. -/
def bfs_step_explore (g : Game) (claimed_edges : List Node)
    (internal_demands : TilePos → List Connection)
    (path : List Node) (current_pos prev_pos : TilePos)
    (rest : List (List Node × TilePos)) (visited_nodes : List Node) :
    List (List Node × TilePos) × List Node :=
  match g.tile current_pos with
  | Tile.Placed placed_tile =>
    (match g.get_direction_towards current_pos prev_pos with
     | some entry_dir =>
       let exit_dir := placed_tile.exit_from_entrance entry_dir
       (match g.get_neighbor_pos current_pos exit_dir with
        | some next_pos =>
          let next_node := canonical_node current_pos next_pos g
          if next_node ∈ visited_nodes ∨ next_node ∈ claimed_edges then
            (rest, visited_nodes)
          else (rest ++ [(path ++ [next_node], next_pos)], next_node :: visited_nodes)
        | none => (rest, visited_nodes))
     | none => (rest, visited_nodes))
  | Tile.Empty =>
    Direction.all_directions.foldl
      (explore_empty_dir g claimed_edges internal_demands path current_pos prev_pos)
      (rest, visited_nodes)
  | Tile.NotOnBoard => (rest, visited_nodes)

/-- The BFS while-loop of find_potential_path_for_team, with fuel.  Every
iteration that enqueues also inserts a fresh node into visited, so the loop
runs at most (initial queue length + number of nodes) times; bfsFuel below
exceeds that bound, and every theorem proved about the loop is fuel-uniform.
The two unwraps of the source (the last node of a popped path, and the
direction towards the previous hex) always succeed on reachable states; the
corresponding default branches are unreachable. -/
def bfs_loop (g : Game) (claimed_edges : List Node)
    (internal_demands : TilePos → List Connection)
    (goal_edges : List (TilePos × Direction)) (goal_hexes : List TilePos) :
    Nat → List (List Node × TilePos) → List Node → Option (List Node)
  | 0, _, _ => none
  | _ + 1, [], _ => none
  | fuel + 1, (path, current_pos) :: rest, visited_nodes =>
    match path.getLast? with
    | none => none
    | some last_node =>
      let prev_pos := if last_node.a = current_pos then last_node.b else last_node.a
      if bfs_goal_hit g internal_demands goal_edges goal_hexes current_pos prev_pos then
        some path
      else
        let qv := bfs_step_explore g claimed_edges internal_demands path
          current_pos prev_pos rest visited_nodes
        bfs_loop g claimed_edges internal_demands goal_edges goal_hexes fuel qv.1 qv.2

def bfsFuel : Nat := 1000

/-- find_potential_path_for_team: goal data, the initial frontier out of the
start boundary slots, then the BFS. -/
def find_potential_path_for_team (player : Player) (g : Game)
    (claimed_edges : List Node) (internal_demands : TilePos → List Connection) :
    Option (List Node) :=
  let sides := get_player_sides player
  let goal_edges := g.edges_on_board_edge sides.2
  let goal_hexes := goal_edges.map Prod.fst
  let qv := (g.edges_on_board_edge sides.1).foldl (init_slot g claimed_edges) ([], [])
  bfs_loop g claimed_edges internal_demands goal_edges goal_hexes bfsFuel qv.1 qv.2

/-- claim_resources_for_path: claim every inter-hex edge of the path, and for
every turn through an Empty hex record the internal connection demand. -/
def claim_resources_for_path (path : List Node) (claimed_edges : List Node)
    (internal_demands : TilePos → List Connection) (g : Game) :
    List Node × (TilePos → List Connection) :=
  let claimed := claimed_edges ++ path
  if path.length < 2 then (claimed, internal_demands)
  else
    (claimed,
     (path.zip path.tail).foldl
       (fun dm w =>
         let node_a := w.1
         let node_b := w.2
         let turn_hex :=
           if node_a.a = node_b.a ∨ node_a.a = node_b.b then node_a.a else node_a.b
         if g.tile turn_hex = Tile.Empty then
           let prev_hex := if node_a.a = turn_hex then node_a.b else node_a.a
           let next_hex := if node_b.a = turn_hex then node_b.b else node_b.a
           match g.get_direction_towards turn_hex prev_hex,
                 g.get_direction_towards turn_hex next_hex with
           | some entry_dir, some exit_dir =>
             let connection := normalize_conn (entry_dir, exit_dir)
             fun p => if p = turn_hex then connection :: dm p else dm p
           | _, _ => dm
         else dm)
       internal_demands)

/-- The player loop of check_paths_for_ordering, threading the claimed-edge
and internal-demand accumulators. -/
def check_paths_go (g : Game) :
    List Player → List Node → (TilePos → List Connection) → Option Player
  | [], _, _ => none
  | player :: rest, claimed, demands =>
    match find_potential_path_for_team player g claimed demands with
    | some p =>
      let cd := claim_resources_for_path p claimed demands g
      check_paths_go g rest cd.1 cd.2
    | none => some player

/-- check_paths_for_ordering: fresh accumulators, then one BFS per player in
the given order. -/
def check_paths_for_ordering (ordered_players : List Player) (g : Game) : Option Player :=
  check_paths_go g ordered_players [] (fun _ => [])

/-- has_distinct_potential_paths: the default ordering, and on failure at one
player a single retry with that player moved to the front. -/
def has_distinct_potential_paths (g : Game) : Bool :=
  let players := List.range g.num_players
  match check_paths_for_ordering players g with
  | some failing_player =>
    let reordered_players := failing_player :: players.filter (fun p => p != failing_player)
    match check_paths_for_ordering reordered_players g with
    | some _ => false
    | none => true
  | none => true

/-- is_move_legal: a game whose outcome is already recorded is always legal;
otherwise defer to has_distinct_potential_paths. -/
def is_move_legal (g : Game) : Bool :=
  if g.outcome.isSome then true
  else has_distinct_potential_paths g

/-- Game::apply_action, returning the updated game and the Err message when
the action is refused (None is Ok).  game.rs consumes is_move_legal through
is_err(); illegality is the error case.  The source indexes tiles_in_hand by
the acting player and panics on out-of-range players; the model reads such
indices as None and lets writes to them fall away, which never happens on
the games the claims evaluate.  The string of the wrong-turn message drops
the apostrophe of the source text. -/
def Game.apply_action (g : Game) (action : Action) : Game × Option String :=
  match action with
  | Action.InitializeGame _ => (g, some "Game initialized twice")
  | Action.DrawTile player tile =>
    if (g.tiles_in_hand.getD player none).isSome then
      (g, some "Player already has a tile in hand")
    else if g.remaining_tiles tile.num = 0 then
      (g, some "No tiles remaining of drawn type")
    else
      let g1 := { g with
        tiles_in_hand := g.tiles_in_hand.set player (some tile),
        remaining_tiles := fun i =>
          if i = tile.num then g.remaining_tiles i - 1 else g.remaining_tiles i }
      ({ g1 with action_history := g1.action_history ++ [action] }, none)
  | Action.RevealTile player tile =>
    if (g.tiles_in_hand.getD player none).isSome ∧
        g.tiles_in_hand.getD player none ≠ some tile then
      (g, some "Must reveal actual tile that player holds")
    else
      let g1 := { g with tiles_in_hand := g.tiles_in_hand.set player (some tile) }
      ({ g1 with action_history := g1.action_history ++ [action] }, none)
  | Action.PlaceTile player tile pos rotation =>
    if g.outcome.isSome then
      (g, some "Game is already over")
    else if (g.tiles_in_hand.getD player none).isSome ∧
        g.tiles_in_hand.getD player none ≠ some tile then
      (g, some "Player must play the tile from their hand")
    else if g.tile pos ≠ Tile.Empty then
      (g, some "Can only place tile on an empty space")
    else if g.current_player ≠ player then
      (g, some "Wrong player turn")
    else
      let temp_game := (g.setTile pos (Tile.Placed (PlacedTile.new tile rotation))).recompute_flows
      if is_move_legal temp_game = false then
        (g, some "Illegal move: blocks another player")
      else
        let g1 := g.setTile pos (Tile.Placed (PlacedTile.new tile rotation))
        let g2 := { g1 with tiles_in_hand := g1.tiles_in_hand.set player none }
        let g3 := g2.recompute_flows
        let g4 :=
          if g3.outcome.isNone then
            { g3 with current_player := (g3.current_player + 1) % g3.settings.num_players }
          else g3
        ({ g4 with action_history := g4.action_history ++ [action] }, none)

/-!  Derived observations and concrete instances used by the claim theorems.
These are not part of the source; each is a direct reading of the embedded
state. -/

/-- The flow cache entry of board cell (i, j) in direction d (None off the
placed tiles), the observable that claims C3 and C8 constrain. -/
def Game.cacheAt (g : Game) (i j : Nat) (d : Direction) : Option Player :=
  match g.board i j with
  | Tile.Placed t => t.flow_cache d
  | _ => none

/-- A tile with its flow cache erased: two games agree on these exactly when
they are identical in tile layout (types, rotations, positions). -/
def eraseTileCache : Tile → Tile
  | Tile.Placed t => Tile.Placed ⟨t.type_, t.rotation, fun _ => none⟩
  | t => t

/-- Identical in sides and tiles, with arbitrary flow-cache contents. -/
def SameShape (g1 g2 : Game) : Prop :=
  (∀ i j, eraseTileCache (g1.board i j) = eraseTileCache (g2.board i j)) ∧
    g1.sides = g2.sides

/-- The hexes traversed by a path of inter-hex edges, starting from a given
hex and crossing each edge in turn. -/
def walkHexes : TilePos → List Node → List TilePos
  | h, [] => [h]
  | h, n :: rest => h :: walkHexes (if n.a = h then n.b else n.a) rest

/-- The hex sequence of a path as the BFS traverses it: the first edge is
crossed away from the endpoint it does not share with the second edge. -/
def traversalHexes : List Node → List TilePos
  | [] => []
  | [n] => [n.a, n.b]
  | n1 :: n2 :: rest =>
    let start := if n1.b = n2.a ∨ n1.b = n2.b then n1.a else n1.b
    walkHexes start (n1 :: n2 :: rest)

/-- The invariant of the BFS queue: every enqueued path consists of
pairwise-distinct nodes, all already inserted into the visited set. -/
def QueueInv (queue : List (List Node × TilePos)) (visited : List Node) : Prop :=
  ∀ pr ∈ queue, pr.1.Nodup ∧ ∀ n ∈ pr.1, n ∈ visited

/-- A fresh two-player game (the board of Game::new, all cells Empty). -/
def gNew2 : Game := Game.new ⟨2, 0⟩

/-- The playable cells of the board, row by row. -/
def playableCells : List TilePos :=
  (List.range 7).foldr (fun i acc =>
    ((List.range 7).filterMap fun j =>
      if notOnBoardCell i j then none else some (⟨i, j⟩ : TilePos)) ++ acc) []

/-- Every inter-hex edge between two playable cells, in canonical form (the
three edge directions that increase the lexicographic order). -/
def allInternalNodes : List Node :=
  playableCells.foldr (fun p acc =>
    (([Direction.NorthWest, .NorthEast, .East]).filterMap fun d =>
      let q := p + d.tile_vec
      if gNew2.tile q ≠ Tile.NotOnBoard then some (⟨p, q, d⟩ : Node)
      else none) ++ acc) []

/-- The corridor of claim C2: the only unclaimed edges form a single route
for player 0 from start slot (0,0) to goal hex (6,3) that loops through hex
(1,1) twice (via the triangle (1,1)-(2,1)-(2,2)). -/
def corridorC2 : List Node :=
  [⟨⟨0,0⟩, ⟨1,1⟩, .NorthEast⟩,
   ⟨⟨1,1⟩, ⟨2,1⟩, .NorthWest⟩,
   ⟨⟨2,1⟩, ⟨2,2⟩, .East⟩,
   ⟨⟨1,1⟩, ⟨2,2⟩, .NorthEast⟩,
   ⟨⟨1,0⟩, ⟨1,1⟩, .East⟩,
   ⟨⟨1,0⟩, ⟨2,0⟩, .NorthWest⟩,
   ⟨⟨2,0⟩, ⟨3,0⟩, .NorthWest⟩,
   ⟨⟨3,0⟩, ⟨4,1⟩, .NorthEast⟩,
   ⟨⟨4,1⟩, ⟨5,2⟩, .NorthEast⟩,
   ⟨⟨5,2⟩, ⟨6,3⟩, .NorthEast⟩]

def claimedC2 : List Node := allInternalNodes.filter (fun n => n ∉ corridorC2)

/-- Internal demands at hex (1,1) that pin its eventual tile to configurations
providing the pairs (SouthWest, NorthWest) and (West, NorthEast), so the BFS
cannot cut across (1,1) but can pass through it twice. -/
def demandsC2 : TilePos → List Connection :=
  fun p => if p = ⟨1, 1⟩ then [(.East, .SouthEast), (.SouthWest, .NorthWest)] else []

/-- The path the C2 search returns: it crosses hex (1,1) twice. -/
def pathC2 : List Node :=
  [⟨⟨0,0⟩, ⟨1,1⟩, .NorthEast⟩,
   ⟨⟨1,1⟩, ⟨2,1⟩, .NorthWest⟩,
   ⟨⟨2,1⟩, ⟨2,2⟩, .East⟩,
   ⟨⟨1,1⟩, ⟨2,2⟩, .NorthEast⟩,
   ⟨⟨1,0⟩, ⟨1,1⟩, .East⟩,
   ⟨⟨1,0⟩, ⟨2,0⟩, .NorthWest⟩,
   ⟨⟨2,0⟩, ⟨3,0⟩, .NorthWest⟩,
   ⟨⟨3,0⟩, ⟨4,1⟩, .NorthEast⟩,
   ⟨⟨4,1⟩, ⟨5,2⟩, .NorthEast⟩,
   ⟨⟨5,2⟩, ⟨6,3⟩, .NorthEast⟩]

/-- A straight corridor for the C2 witness: the main diagonal. -/
def corridorW2 : List Node :=
  [⟨⟨0,0⟩, ⟨1,1⟩, .NorthEast⟩,
   ⟨⟨1,1⟩, ⟨2,2⟩, .NorthEast⟩,
   ⟨⟨2,2⟩, ⟨3,3⟩, .NorthEast⟩,
   ⟨⟨3,3⟩, ⟨4,4⟩, .NorthEast⟩,
   ⟨⟨4,4⟩, ⟨5,5⟩, .NorthEast⟩,
   ⟨⟨5,5⟩, ⟨6,6⟩, .NorthEast⟩]

def claimedW2 : List Node := allInternalNodes.filter (fun n => n ∉ corridorW2)

/-- A game with a placed tile at the center carrying no cached flow. -/
def gC3a : Game :=
  gNew2.setTile ⟨3, 3⟩ (Tile.Placed (PlacedTile.new .NoSharps ⟨0⟩))

/-- The same sides and tile layout, but a stale flow-cache entry (player 7 on
the SouthWest edge of the center tile) left over from some prior state. -/
def gC3b : Game :=
  gNew2.setTile ⟨3, 3⟩
    (Tile.Placed ⟨.NoSharps, ⟨0⟩, fun d => if d = .SouthWest then some 7 else none⟩)

/-- A game whose outcome is already recorded, for the C4/C9 witnesses. -/
def gOver : Game := { gNew2 with outcome := some (GameOutcome.Victory [0]) }

/-- Agreement of every field except the board, used to track what the flood
writes leave untouched. -/
structure NonBoardEq (g1 g2 : Game) : Prop where
  settings_eq : g1.settings = g2.settings
  sides_eq : g1.sides = g2.sides
  remaining_eq : g1.remaining_tiles = g2.remaining_tiles
  hand_eq : g1.tiles_in_hand = g2.tiles_in_hand
  history_eq : g1.action_history = g2.action_history
  current_eq : g1.current_player = g2.current_player
  outcome_eq : g1.outcome = g2.outcome

/-- The invariant threaded through the Empty-hex exploration fold. -/
def ExploreInv (path : List Node)
    (qv : List (List Node × TilePos) × List Node) : Prop :=
  QueueInv qv.1 qv.2 ∧ path.Nodup ∧ ∀ n ∈ path, n ∈ qv.2

/-- The two-run relation of a board transformer: on shape-equal inputs it
yields shape-equal outputs, and at every cache cell it either writes the same
value in both runs or leaves the cell untouched in both runs. -/
def FloodTwoRun (f : Game → Game) : Prop :=
  ∀ g1 g2, SameShape g1 g2 →
    SameShape (f g1) (f g2) ∧
    ∀ i j d, (f g1).cacheAt i j d = (f g2).cacheAt i j d ∨
      ((f g1).cacheAt i j d = g1.cacheAt i j d ∧ (f g2).cacheAt i j d = g2.cacheAt i j d)

/-!  Theorems.  Helper lemmas come first, the claim theorems refer to them. -/

theorem TilePos.add_sub_cancel (p : TilePos) (v : TileVec) : (p + v) - p = v := by
  cases p with
  | mk pr pc =>
    cases v with
    | mk vr vc =>
      show TileVec.mk (pr + vr - pr) (pc + vc - pc) = TileVec.mk vr vc
      congr 1 <;> omega

theorem TilePos.add_neg_cancel (p : TilePos) (v : TileVec) : (p + v) + (-v) = p := by
  cases p with
  | mk pr pc =>
    cases v with
    | mk vr vc =>
      show TilePos.mk (pr + vr + -vr) (pc + vc + -vc) = TilePos.mk pr pc
      congr 1 <;> omega

theorem gdt_adjacent (g : Game) (p : TilePos) (d : Direction) :
    g.get_direction_towards p (p + d.tile_vec) = some d := by
  unfold Game.get_direction_towards
  simp only [TilePos.add_sub_cancel]
  cases d <;> rfl

theorem Direction.tile_vec_reversed (d : Direction) : d.reversed.tile_vec = -d.tile_vec := by
  cases d <;> rfl

theorem Direction.reversed_reversed (d : Direction) : d.reversed.reversed = d := by
  cases d <;> decide

theorem TilePos.add_eq_self_iff (p : TilePos) (v : TileVec) : p + v = p ↔ v = ⟨0, 0⟩ := by
  cases p with
  | mk pr pc =>
    cases v with
    | mk vr vc =>
      show TilePos.mk (pr + vr) (pc + vc) = TilePos.mk pr pc ↔ TileVec.mk vr vc = ⟨0, 0⟩
      rw [TilePos.mk.injEq, TileVec.mk.injEq]
      omega

theorem TilePos.ltb_iff (a b : TilePos) :
    a.ltb b = true ↔ (a.row < b.row ∨ (a.row = b.row ∧ a.col < b.col)) := by
  simp [TilePos.ltb]

theorem TilePos.ltb_total_of_ne (a b : TilePos) (hne : a ≠ b) :
    a.ltb b = true ∨ b.ltb a = true := by
  cases a with
  | mk ar ac =>
    cases b with
    | mk br bc =>
      simp only [TilePos.ltb_iff]
      have : ¬(ar = br ∧ ac = bc) := by
        intro hc
        exact hne (by cases hc; subst_vars; rfl)
      omega

theorem TilePos.ltb_asymm (a b : TilePos) (h : a.ltb b = true) : b.ltb a = false := by
  cases a with
  | mk ar ac =>
    cases b with
    | mk br bc =>
      simp only [TilePos.ltb_iff] at h
      by_contra hc
      simp only [Bool.not_eq_false, TilePos.ltb_iff] at hc
      omega

theorem adjacent_ne (p : TilePos) (d : Direction) : p + d.tile_vec ≠ p := by
  rw [Ne, TilePos.add_eq_self_iff]
  cases d <;> decide

/-- C7: canonical_node is symmetric in its two hexes: for adjacent hexes the
canonical node of (A, B) and of (B, A) is the same node, hence an edge
claimed from the A to B traversal also blocks the B to A traversal. -/
theorem c7_canonical_node_symmetric : ∀ (g : Game) (p1 p2 : TilePos) (d : Direction),
    p2 = p1 + d.tile_vec →
    canonical_node p1 p2 g = canonical_node p2 p1 g ∧
      ∀ claimed : List Node,
        canonical_node p1 p2 g ∈ claimed → canonical_node p2 p1 g ∈ claimed := by
  intro g p1 p2 d h
  have hmain : canonical_node p1 p2 g = canonical_node p2 p1 g := by
    have h12 : g.get_direction_towards p1 p2 = some d := by
      rw [h]; exact gdt_adjacent g p1 d
    have h21 : g.get_direction_towards p2 p1 = some d.reversed := by
      have := gdt_adjacent g p2 d.reversed
      rw [show p2 + d.reversed.tile_vec = p1 by
        rw [Direction.tile_vec_reversed, h]; exact TilePos.add_neg_cancel p1 d.tile_vec] at this
      exact this
    have hne : p1 ≠ p2 := by
      rw [h]
      intro hc
      exact adjacent_ne p1 d hc.symm
    unfold canonical_node
    rw [h12, h21]
    rcases TilePos.ltb_total_of_ne p1 p2 hne with hlt | hlt
    · rw [hlt, TilePos.ltb_asymm p1 p2 hlt]
      simp [Direction.reversed_reversed]
    · rw [hlt, TilePos.ltb_asymm p2 p1 hlt]
      simp
  exact ⟨hmain, fun claimed hc => hmain ▸ hc⟩

theorem c7_witness :
    canonical_node ⟨2, 2⟩ ⟨2, 3⟩ gNew2 = canonical_node ⟨2, 3⟩ ⟨2, 2⟩ gNew2 :=
  (c7_canonical_node_symmetric gNew2 ⟨2, 2⟩ ⟨2, 3⟩ .East (by decide)).1

/-- C6: for every tile type the entrance-to-exit map is a self-inverse
permutation of the six directions with no fixed point; the same holds for a
placed tile under every rotation; and all_flows of both consists of exactly
three pairs in which every direction appears exactly once. -/
instance : Fintype Rotation :=
  Fintype.ofEquiv (Fin 6) ⟨Rotation.mk, Rotation.val, fun _ => rfl, fun _ => rfl⟩

instance : Fintype TileType :=
  ⟨⟨([TileType.NoSharps, .OneSharp, .TwoSharps, .ThreeSharps] : List TileType), by decide⟩,
   fun t => by cases t <;> decide⟩

theorem c6_tile_algebra : ∀ (t : TileType) (r : Rotation) (d : Direction),
    t.exit_from_entrance (t.exit_from_entrance d) = d ∧
    t.exit_from_entrance d ≠ d ∧
    (PlacedTile.new t r).exit_from_entrance ((PlacedTile.new t r).exit_from_entrance d) = d ∧
    (PlacedTile.new t r).exit_from_entrance d ≠ d ∧
    t.all_flows.length = 3 ∧
    t.all_flows.countP (fun pr => decide (pr.1 = d) || decide (pr.2 = d)) = 1 ∧
    (PlacedTile.new t r).all_flows.length = 3 ∧
    (PlacedTile.new t r).all_flows.countP
      (fun pr => decide (pr.1 = d) || decide (pr.2 = d)) = 1 := by
  decide

/-- C5 counterexample: the demand pair (East, SouthWest) consists of two
distinct directions, but is_satisfiable rejects it because the provided
connection sets are normalized smaller-direction-first and the subset test
is on exact pairs. -/
theorem c5_reversed_pair_unsatisfiable :
    is_satisfiable [(Direction.East, Direction.SouthWest)] = false := by
  decide

/-- C5 (amended): the empty demand set is satisfiable, and every demand set
consisting of exactly one normalized pair of two distinct directions (smaller
discriminant first, the form every caller constructs) is satisfiable. -/
theorem c5_oracle_totality :
    is_satisfiable [] = true ∧
      ∀ d1 d2 : Direction, d1.num < d2.num → is_satisfiable [(d1, d2)] = true := by
  decide

theorem c5_witness : is_satisfiable [(Direction.SouthWest, Direction.West)] = true :=
  c5_oracle_totality.2 Direction.SouthWest Direction.West (by decide)

/-- C4: a game with a recorded Victory outcome is always reported legal,
whatever the board contents. -/
theorem c4_victory_short_circuit : ∀ (g : Game) (ws : List Player),
    g.outcome = some (GameOutcome.Victory ws) → is_move_legal g = true := by
  intro g ws h
  simp [is_move_legal, h]

theorem c4_witness : is_move_legal gOver = true :=
  c4_victory_short_circuit gOver [0] rfl

/-- C1: on a game with no recorded outcome, is_move_legal reports illegal
exactly when the default-order run of check_paths_for_ordering fails at some
player X and the run on the ordering with X moved to the front (others in
their original relative order, accumulators restarted from scratch inside
check_paths_for_ordering) also fails at some player; otherwise legal. -/
theorem c1_legality_orderings : ∀ g : Game, g.outcome = none →
    (is_move_legal g = false ↔
      ∃ X, check_paths_for_ordering (List.range g.num_players) g = some X ∧
        (check_paths_for_ordering
          (X :: (List.range g.num_players).filter (fun p => p != X)) g).isSome = true) := by
  intro g h
  simp only [is_move_legal, has_distinct_potential_paths, h, Option.isSome_none,
    Bool.false_eq_true, if_false]
  cases hc : check_paths_for_ordering (List.range g.num_players) g with
  | none =>
    simp
  | some fp =>
    cases hr : check_paths_for_ordering
        (fp :: (List.range g.num_players).filter (fun p => p != fp)) g with
    | none =>
      constructor
      · intro hfalse
        simp [hr] at hfalse
      · rintro ⟨X, hX, hSome⟩
        injection hX with hX'
        subst hX'
        rw [hr] at hSome
        exact absurd hSome (by simp)
    | some y =>
      constructor
      · intro _
        exact ⟨fp, rfl, by rw [hr]; rfl⟩
      · intro _
        simp [hr]

theorem c1_witness :
    gNew2.outcome = none ∧
      (is_move_legal gNew2 = false ↔
        ∃ X, check_paths_for_ordering (List.range gNew2.num_players) gNew2 = some X ∧
          (check_paths_for_ordering
            (X :: (List.range gNew2.num_players).filter (fun p => p != X)) gNew2).isSome = true) :=
  ⟨rfl, c1_legality_orderings gNew2 rfl⟩

theorem queueInv_nil (visited : List Node) : QueueInv [] visited := by
  intro pr hm
  simp at hm

theorem queueInv_tail {pr0 : List Node × TilePos} {rest visited}
    (h : QueueInv (pr0 :: rest) visited) : QueueInv rest visited :=
  fun pr hm => h pr (List.mem_cons_of_mem _ hm)

theorem queueInv_head {pr0 : List Node × TilePos} {rest visited}
    (h : QueueInv (pr0 :: rest) visited) :
    pr0.1.Nodup ∧ ∀ n ∈ pr0.1, n ∈ visited :=
  h pr0 (List.mem_cons_self _ _)

theorem queueInv_push {queue visited} (h : QueueInv queue visited)
    (path : List Node) (tip : TilePos) (n : Node)
    (hp : path.Nodup) (hsub : ∀ m ∈ path, m ∈ visited) (hn : n ∉ visited) :
    QueueInv (queue ++ [(path ++ [n], tip)]) (n :: visited) := by
  intro pr hm
  rcases List.mem_append.mp hm with hq | hnew
  · obtain ⟨h1, h2⟩ := h pr hq
    exact ⟨h1, fun m hm' => List.mem_cons_of_mem _ (h2 m hm')⟩
  · have hpr : pr = (path ++ [n], tip) := by simpa using hnew
    subst hpr
    constructor
    · have hnp : n ∉ path := fun hmem => hn (hsub n hmem)
      refine List.Nodup.append hp (List.nodup_singleton n) ?_
      intro a ha hb
      simp only [List.mem_singleton] at hb
      subst hb
      exact hnp ha
    · intro m hm'
      rcases List.mem_append.mp hm' with h1 | h2
      · exact List.mem_cons_of_mem _ (hsub m h1)
      · simp only [List.mem_singleton] at h2
        subst h2
        exact List.mem_cons_self _ _

theorem queueInv_push1 {queue visited} (h : QueueInv queue visited)
    (tip : TilePos) (n : Node) (hn : n ∉ visited) :
    QueueInv (queue ++ [([n], tip)]) (n :: visited) := by
  have := queueInv_push h [] tip n List.nodup_nil (by simp) hn
  simpa using this

theorem foldl_preserves {α β : Type _} (P : β → Prop) (f : β → α → β)
    (hf : ∀ b a, P b → P (f b a)) : ∀ (l : List α) (b), P b → P (l.foldl f b) := by
  intro l
  induction l with
  | nil => intro b hb; simpa using hb
  | cons x xs ih => intro b hb; simpa using ih (f b x) (hf b x hb)

theorem enqueue_start_node_inv (g : Game) (claimed : List Node) (start_pos : TilePos)
    (qv : List (List Node × TilePos) × List Node) (exit_dir : Direction)
    (h : QueueInv qv.1 qv.2) :
    QueueInv (enqueue_start_node g claimed start_pos qv exit_dir).1
      (enqueue_start_node g claimed start_pos qv exit_dir).2 := by
  simp only [enqueue_start_node]
  cases g.get_neighbor_pos start_pos exit_dir with
  | none => exact h
  | some neighbor_pos =>
    by_cases hcond :
        canonical_node start_pos neighbor_pos g ∈ claimed ∨
          canonical_node start_pos neighbor_pos g ∈ qv.2
    · simp only [if_pos hcond]
      exact h
    · simp only [if_neg hcond]
      exact queueInv_push1 h neighbor_pos _ (fun hmem => hcond (Or.inr hmem))

theorem init_slot_inv (g : Game) (claimed : List Node)
    (qv : List (List Node × TilePos) × List Node) (slot : TilePos × Direction)
    (h : QueueInv qv.1 qv.2) :
    QueueInv (init_slot g claimed qv slot).1 (init_slot g claimed qv slot).2 := by
  simp only [init_slot]
  cases g.tile slot.1 with
  | Placed placed_tile => exact enqueue_start_node_inv g claimed slot.1 qv _ h
  | Empty =>
    exact foldl_preserves (fun qv => QueueInv qv.1 qv.2)
      (enqueue_start_node g claimed slot.1)
      (fun b a hb => enqueue_start_node_inv g claimed slot.1 b a hb)
      Direction.all_directions qv h
  | NotOnBoard => exact h

theorem explore_empty_dir_inv (g : Game) (claimed : List Node)
    (demands : TilePos → List Connection) (path : List Node)
    (current_pos prev_pos : TilePos)
    (qv : List (List Node × TilePos) × List Node) (exit_dir : Direction)
    (h : ExploreInv path qv) :
    ExploreInv path (explore_empty_dir g claimed demands path current_pos prev_pos qv exit_dir) := by
  obtain ⟨h1, h2, h3⟩ := h
  simp only [explore_empty_dir]
  cases g.get_neighbor_pos current_pos exit_dir with
  | none => exact ⟨h1, h2, h3⟩
  | some next_pos =>
    by_cases hprev : next_pos = prev_pos
    · simp only [if_pos hprev]
      exact ⟨h1, h2, h3⟩
    · simp only [if_neg hprev]
      by_cases hvc :
          canonical_node current_pos next_pos g ∈ qv.2 ∨
            canonical_node current_pos next_pos g ∈ claimed
      · simp only [if_pos hvc]
        exact ⟨h1, h2, h3⟩
      · simp only [if_neg hvc]
        cases g.get_direction_towards current_pos prev_pos with
        | none => exact ⟨h1, h2, h3⟩
        | some entry_dir =>
          by_cases hsat :
              ¬ is_satisfiable
                (normalize_conn (entry_dir, exit_dir) :: demands current_pos) = true
          · simp only [if_pos hsat]
            exact ⟨h1, h2, h3⟩
          · simp only [if_neg hsat]
            refine ⟨queueInv_push h1 path next_pos _ h2 h3
              (fun hmem => hvc (Or.inl hmem)), h2, ?_⟩
            intro n hn
            exact List.mem_cons_of_mem _ (h3 n hn)

theorem bfs_step_explore_inv (g : Game) (claimed : List Node)
    (demands : TilePos → List Connection) (path : List Node)
    (current_pos prev_pos : TilePos)
    (rest : List (List Node × TilePos)) (visited : List Node)
    (hrest : QueueInv rest visited) (hp : path.Nodup)
    (hsub : ∀ n ∈ path, n ∈ visited) :
    QueueInv (bfs_step_explore g claimed demands path current_pos prev_pos rest visited).1
      (bfs_step_explore g claimed demands path current_pos prev_pos rest visited).2 := by
  simp only [bfs_step_explore]
  cases g.tile current_pos with
  | NotOnBoard => exact hrest
  | Placed placed_tile =>
    cases g.get_direction_towards current_pos prev_pos with
    | none => exact hrest
    | some entry_dir =>
      cases hnb : g.get_neighbor_pos current_pos (placed_tile.exit_from_entrance entry_dir) with
      | none => simpa [hnb] using hrest
      | some next_pos =>
        by_cases hvc :
            canonical_node current_pos next_pos g ∈ visited ∨
              canonical_node current_pos next_pos g ∈ claimed
        · simpa [hnb, if_pos hvc] using hrest
        · simpa [hnb, if_neg hvc] using
            queueInv_push hrest path next_pos _ hp hsub (fun hmem => hvc (Or.inl hmem))
  | Empty =>
    exact (foldl_preserves (ExploreInv path)
      (explore_empty_dir g claimed demands path current_pos prev_pos)
      (fun b a hb => explore_empty_dir_inv g claimed demands path current_pos prev_pos b a hb)
      Direction.all_directions (rest, visited) ⟨hrest, hp, hsub⟩).1

theorem bfs_loop_nodup (g : Game) (claimed : List Node)
    (demands : TilePos → List Connection)
    (goal_edges : List (TilePos × Direction)) (goal_hexes : List TilePos) :
    ∀ (fuel : Nat) (queue : List (List Node × TilePos)) (visited : List Node)
      (path : List Node),
      QueueInv queue visited →
      bfs_loop g claimed demands goal_edges goal_hexes fuel queue visited = some path →
      path.Nodup := by
  intro fuel
  induction fuel with
  | zero =>
    intro queue visited path _ hres
    simp [bfs_loop] at hres
  | succ n ih =>
    intro queue visited path hinv hres
    cases queue with
    | nil => simp [bfs_loop] at hres
    | cons head rest =>
      obtain ⟨path0, current_pos⟩ := head
      simp only [bfs_loop] at hres
      cases hlast : path0.getLast? with
      | none =>
        rw [hlast] at hres
        simp at hres
      | some last_node =>
        rw [hlast] at hres
        simp only at hres
        split at hres <;> split at hres <;>
          first
          | (have hpath : path = path0 := by
               injection hres with h'
               exact h'.symm
             subst hpath
             exact (queueInv_head hinv).1)
          | (exact ih _ _ path
              (bfs_step_explore_inv g claimed demands path0 current_pos _ rest visited
                (queueInv_tail hinv) (queueInv_head hinv).1 (queueInv_head hinv).2)
              hres)

/-- C2 (amended): within a single player's BFS the cycle guard is per
inter-hex edge, not per hex: any path find_potential_path_for_team returns
passes through pairwise-distinct nodes (inter-hex edges), independently of
the cross-player contention sets; the hex sequence of a returned path can
repeat a hex. -/
theorem c2_returned_path_nodes_distinct : ∀ (player : Player) (g : Game)
    (claimed_edges : List Node) (internal_demands : TilePos → List Connection)
    (path : List Node),
    find_potential_path_for_team player g claimed_edges internal_demands = some path →
    path.Nodup := by
  intro player g claimed demands path hres
  simp only [find_potential_path_for_team] at hres
  refine bfs_loop_nodup g claimed demands _ _ bfsFuel _ _ path ?_ hres
  exact foldl_preserves (fun qv => QueueInv qv.1 qv.2) (init_slot g claimed)
    (fun b a hb => init_slot_inv g claimed b a hb) _ ([], [])
    (queueInv_nil [])

/-- C2 counterexample: on the empty two-player board, with the contention
sets claimedC2/demandsC2, player 0's BFS returns pathC2, whose hex sequence
visits hex (1,1) twice - the search does revisit a hex within one player's
own search, so the per-hex cycle-guard claim is false. -/
theorem c2_hex_revisit_counterexample :
    find_potential_path_for_team 0 gNew2 claimedC2 demandsC2 = some pathC2 ∧
      ¬ (traversalHexes pathC2).Nodup := by
  constructor
  · decide
  · decide

theorem c2_witness :
    find_potential_path_for_team 0 gNew2 claimedW2 (fun _ => []) = some corridorW2 ∧
      corridorW2.Nodup :=
  ⟨by decide,
   c2_returned_path_nodes_distinct 0 gNew2 claimedW2 (fun _ => []) corridorW2 (by decide)⟩

theorem nonBoardEq_refl (g : Game) : NonBoardEq g g :=
  ⟨rfl, rfl, rfl, rfl, rfl, rfl, rfl⟩

theorem NonBoardEq.trans' {g1 g2 g3 : Game} (h1 : NonBoardEq g1 g2)
    (h2 : NonBoardEq g2 g3) : NonBoardEq g1 g3 :=
  ⟨h1.settings_eq.trans h2.settings_eq, h1.sides_eq.trans h2.sides_eq,
   h1.remaining_eq.trans h2.remaining_eq, h1.hand_eq.trans h2.hand_eq,
   h1.history_eq.trans h2.history_eq, h1.current_eq.trans h2.current_eq,
   h1.outcome_eq.trans h2.outcome_eq⟩

theorem setTile_nonboard (g : Game) (pos : TilePos) (t : Tile) :
    NonBoardEq (g.setTile pos t) g := by
  unfold Game.setTile
  split
  · exact ⟨rfl, rfl, rfl, rfl, rfl, rfl, rfl⟩
  · exact nonBoardEq_refl g

theorem floodfill_nonboard (player : Player) :
    ∀ (fuel : Nat) (pos : TilePos) (dir : Direction) (g : Game),
      NonBoardEq (Game.floodfill_path player fuel pos dir g) g := by
  intro fuel
  induction fuel with
  | zero => intro pos dir g; exact nonBoardEq_refl g
  | succ n ih =>
    intro pos dir g
    rw [Game.floodfill_path]
    cases htile : g.tileAt? pos with
    | none => exact nonBoardEq_refl g
    | some t =>
      cases t with
      | NotOnBoard => exact nonBoardEq_refl g
      | Empty => exact nonBoardEq_refl g
      | Placed tile =>
        simp only
        split
        · exact setTile_nonboard g pos _
        · exact (ih _ _ _).trans' (setTile_nonboard g pos _)

theorem foldl_nonboard {α : Type _} (f : Game → α → Game)
    (hf : ∀ g a, NonBoardEq (f g a) g) :
    ∀ (l : List α) (g : Game), NonBoardEq (l.foldl f g) g := by
  intro l
  induction l with
  | nil => intro g; exact nonBoardEq_refl g
  | cons x xs ih => intro g; exact (ih (f g x)).trans' (hf g x)

theorem flood_side_nonboard (g : Game) (s : Fin 6) : NonBoardEq (g.flood_side s) g := by
  unfold Game.flood_side
  cases g.sides s with
  | none => exact nonBoardEq_refl g
  | some player =>
    exact foldl_nonboard
      (fun acc (pr : TilePos × Direction) =>
        Game.floodfill_path player floodFuel pr.1 pr.2 acc)
      (fun g' pr => floodfill_nonboard player floodFuel pr.1 pr.2 g')
      (g.edges_on_board_edge ⟨s⟩) g

theorem flood_sides_list_nonboard (g : Game) (L : List (Fin 6)) :
    NonBoardEq (g.flood_sides_list L) g :=
  foldl_nonboard Game.flood_side (fun g' s => flood_side_nonboard g' s) L g

/-- C3 theorem: the claim fails on the code.  gC3a and gC3b agree in sides
and tiles and differ only in a stale flow-cache entry, yet recompute_flows
returns different flow caches: the clearing loop at the top of
recompute_flows binds each Placed tile by value (Tile is Copy), mutates the
copy and drops it, so the stale entry survives both the clear and the
refloods. -/
theorem c3_stale_cache_counterexample :
    SameShape gC3a gC3b ∧
      gC3a.recompute_flows.cacheAt 3 3 Direction.SouthWest ≠
        gC3b.recompute_flows.cacheAt 3 3 Direction.SouthWest := by
  refine ⟨⟨?_, rfl⟩, by decide⟩
  intro i j
  have ha : gC3a.board i j =
      (if i = 3 ∧ j = 3 then Tile.Placed (PlacedTile.new .NoSharps ⟨0⟩)
       else gNew2.board i j) := rfl
  have hb : gC3b.board i j =
      (if i = 3 ∧ j = 3
       then Tile.Placed ⟨.NoSharps, ⟨0⟩, fun d => if d = .SouthWest then some 7 else none⟩
       else gNew2.board i j) := rfl
  rw [ha, hb]
  by_cases hij : i = 3 ∧ j = 3
  · rw [if_pos hij, if_pos hij]
    rfl
  · rw [if_neg hij, if_neg hij]

/-- C9: a recorded outcome is sticky: no apply_action call (of any kind,
succeeding or failing) and no recompute_flows call changes or clears it. -/
theorem c9_outcome_sticky : ∀ (g : Game) (a : Action) (o : GameOutcome),
    g.outcome = some o →
    (g.apply_action a).1.outcome = some o ∧ (g.recompute_flows).outcome = some o := by
  intro g a o h
  constructor
  · cases a with
    | InitializeGame s => exact h
    | DrawTile p t =>
      simp only [Game.apply_action]
      split_ifs <;> simpa using h
    | RevealTile p t =>
      simp only [Game.apply_action]
      split_ifs <;> simpa using h
    | PlaceTile p t pos r =>
      have hs : g.outcome.isSome = true := by simp [h]
      simp only [Game.apply_action, hs]
      simpa using h
  · have hA : (g.clear_flow_caches_loop.flood_sides_list (List.finRange 6)).outcome
        = some o :=
      (flood_sides_list_nonboard _ _).outcome_eq.trans h
    show (g.clear_flow_caches_loop.flood_sides_list (List.finRange 6)).update_outcome.outcome
      = some o
    unfold Game.update_outcome
    simp [hA]

theorem c9_witness :
    gOver.outcome = some (GameOutcome.Victory [0]) ∧
      (gOver.apply_action (Action.DrawTile 0 .NoSharps)).1.outcome
          = some (GameOutcome.Victory [0]) ∧
        gOver.recompute_flows.outcome = some (GameOutcome.Victory [0]) :=
  ⟨rfl, c9_outcome_sticky gOver (Action.DrawTile 0 .NoSharps) (GameOutcome.Victory [0]) rfl⟩

/-- C10: apply_action is atomic: whenever it returns an error, the game is
returned exactly as it was - in particular a placement rejected by the
legality check is never committed. -/
theorem c10_apply_action_atomic : ∀ (g : Game) (a : Action) (e : String),
    (g.apply_action a).2 = some e → (g.apply_action a).1 = g := by
  intro g a e h
  cases a with
  | InitializeGame s => rfl
  | DrawTile p t =>
    simp only [Game.apply_action] at h ⊢
    split_ifs at h ⊢ <;> first | rfl | simp at h
  | RevealTile p t =>
    simp only [Game.apply_action] at h ⊢
    split_ifs at h ⊢ <;> first | rfl | simp at h
  | PlaceTile p t pos r =>
    simp only [Game.apply_action] at h ⊢
    split_ifs at h ⊢ <;> first | rfl | simp at h

theorem c10_witness :
    (gNew2.apply_action (Action.InitializeGame ⟨2, 0⟩)).2 = some "Game initialized twice" ∧
      (gNew2.apply_action (Action.InitializeGame ⟨2, 0⟩)).1 = gNew2 :=
  ⟨rfl, c10_apply_action_atomic gNew2 (Action.InitializeGame ⟨2, 0⟩)
    "Game initialized twice" rfl⟩

theorem sameShape_refl (g : Game) : SameShape g g := ⟨fun _ _ => rfl, rfl⟩

theorem SameShape.symm {g1 g2 : Game} (h : SameShape g1 g2) : SameShape g2 g1 :=
  ⟨fun i j => (h.1 i j).symm, h.2.symm⟩

theorem SameShape.trans {g1 g2 g3 : Game} (h1 : SameShape g1 g2)
    (h2 : SameShape g2 g3) : SameShape g1 g3 :=
  ⟨fun i j => (h1.1 i j).trans (h2.1 i j), h1.2.trans h2.2⟩

theorem eraseTile_placed_inv {t1 t2 : PlacedTile}
    (h : eraseTileCache (Tile.Placed t1) = eraseTileCache (Tile.Placed t2)) :
    t1.type_ = t2.type_ ∧ t1.rotation = t2.rotation := by
  simp only [eraseTileCache, Tile.Placed.injEq, PlacedTile.mk.injEq] at h
  exact ⟨h.1, h.2.1⟩

theorem eraseTile_eq_notonboard {t1 t2 : Tile}
    (h : eraseTileCache t1 = eraseTileCache t2) :
    (t1 = Tile.NotOnBoard ↔ t2 = Tile.NotOnBoard) := by
  cases t1 <;> cases t2 <;> simp_all [eraseTileCache]

theorem Game.tileAt?_board {g : Game} {pos : TilePos} {t : Tile}
    (h : g.tileAt? pos = some t) :
    pos.inBounds ∧ g.board pos.row.toNat pos.col.toNat = t := by
  unfold Game.tileAt? at h
  split at h
  · rename_i hb
    refine ⟨hb, ?_⟩
    injection h
  · exact absurd h (by simp)

theorem shape_tileAt? {g1 g2 : Game} (h : SameShape g1 g2) (pos : TilePos) :
    (g1.tileAt? pos).map eraseTileCache = (g2.tileAt? pos).map eraseTileCache := by
  by_cases hb : pos.inBounds <;> simp [Game.tileAt?, hb, h.1]

theorem shape_tile {g1 g2 : Game} (h : SameShape g1 g2) (pos : TilePos) :
    eraseTileCache (g1.tile pos) = eraseTileCache (g2.tile pos) := by
  by_cases hb : pos.inBounds <;> simp [Game.tile, hb, h.1]

theorem shape_tile_notonboard {g1 g2 : Game} (h : SameShape g1 g2) (pos : TilePos) :
    (g1.tile pos = Tile.NotOnBoard ↔ g2.tile pos = Tile.NotOnBoard) :=
  eraseTile_eq_notonboard (shape_tile h pos)

theorem shape_adjacent {g1 g2 : Game} (h : SameShape g1 g2) (pos : TilePos)
    (dir : Direction) : g1.adjacent_tile pos dir = g2.adjacent_tile pos dir := by
  unfold Game.adjacent_tile
  by_cases hb : g1.tile (pos + dir.tile_vec) = Tile.NotOnBoard
  · rw [if_pos hb, if_pos ((shape_tile_notonboard h _).mp hb)]
  · rw [if_neg hb, if_neg (fun hc => hb ((shape_tile_notonboard h _).mpr hc))]

theorem shape_tileAt?_none {g1 g2 : Game} (hs : SameShape g1 g2) {pos : TilePos}
    (h1 : g1.tileAt? pos = none) : g2.tileAt? pos = none := by
  have hmap := shape_tileAt? hs pos
  rw [h1] at hmap
  cases h2 : g2.tileAt? pos with
  | none => rfl
  | some t2 => rw [h2] at hmap; simp at hmap

theorem shape_tileAt?_notonboard {g1 g2 : Game} (hs : SameShape g1 g2) {pos : TilePos}
    (h1 : g1.tileAt? pos = some Tile.NotOnBoard) :
    g2.tileAt? pos = some Tile.NotOnBoard := by
  have hmap := shape_tileAt? hs pos
  rw [h1] at hmap
  cases h2 : g2.tileAt? pos with
  | none => rw [h2] at hmap; simp at hmap
  | some t2 =>
    rw [h2] at hmap
    simp only [Option.map_some'] at hmap
    cases t2 <;> simp_all [eraseTileCache]

theorem shape_tileAt?_empty {g1 g2 : Game} (hs : SameShape g1 g2) {pos : TilePos}
    (h1 : g1.tileAt? pos = some Tile.Empty) :
    g2.tileAt? pos = some Tile.Empty := by
  have hmap := shape_tileAt? hs pos
  rw [h1] at hmap
  cases h2 : g2.tileAt? pos with
  | none => rw [h2] at hmap; simp at hmap
  | some t2 =>
    rw [h2] at hmap
    simp only [Option.map_some'] at hmap
    cases t2 <;> simp_all [eraseTileCache]

theorem shape_tileAt?_placed {g1 g2 : Game} (hs : SameShape g1 g2) {pos : TilePos}
    {tile1 : PlacedTile} (h1 : g1.tileAt? pos = some (Tile.Placed tile1)) :
    ∃ tile2, g2.tileAt? pos = some (Tile.Placed tile2) ∧
      tile1.type_ = tile2.type_ ∧ tile1.rotation = tile2.rotation := by
  have hmap := shape_tileAt? hs pos
  rw [h1] at hmap
  cases h2 : g2.tileAt? pos with
  | none => rw [h2] at hmap; simp at hmap
  | some t2 =>
    rw [h2] at hmap
    simp only [Option.map_some'] at hmap
    cases t2 with
    | NotOnBoard => simp_all [eraseTileCache]
    | Empty => simp_all [eraseTileCache]
    | Placed tile2 =>
      injection hmap with hmap'
      exact ⟨tile2, rfl, eraseTile_placed_inv hmap'⟩

theorem setTile_shape {g1 g2 : Game} (h : SameShape g1 g2) (pos : TilePos)
    {t1 t2 : Tile} (ht : eraseTileCache t1 = eraseTileCache t2) :
    SameShape (g1.setTile pos t1) (g2.setTile pos t2) := by
  constructor
  · intro i j
    unfold Game.setTile
    by_cases hb : pos.inBounds
    · rw [if_pos hb, if_pos hb]
      show eraseTileCache (if i = pos.row.toNat ∧ j = pos.col.toNat then t1 else g1.board i j)
        = eraseTileCache (if i = pos.row.toNat ∧ j = pos.col.toNat then t2 else g2.board i j)
      by_cases hij : i = pos.row.toNat ∧ j = pos.col.toNat
      · rw [if_pos hij, if_pos hij]
        exact ht
      · rw [if_neg hij, if_neg hij]
        exact h.1 i j
    · rw [if_neg hb, if_neg hb]
      exact h.1 i j
  · rw [(setTile_nonboard g1 pos t1).sides_eq, (setTile_nonboard g2 pos t2).sides_eq]
    exact h.2

theorem cacheAt_setTile (g : Game) (pos : TilePos) (t : Tile) (i j : Nat) (d : Direction) :
    (g.setTile pos t).cacheAt i j d =
      if pos.inBounds ∧ i = pos.row.toNat ∧ j = pos.col.toNat then
        (match t with
         | Tile.Placed pt => pt.flow_cache d
         | _ => none)
      else g.cacheAt i j d := by
  unfold Game.setTile Game.cacheAt
  by_cases hb : pos.inBounds
  · rw [if_pos hb]
    show (match (if i = pos.row.toNat ∧ j = pos.col.toNat then t else g.board i j) with
          | Tile.Placed pt => pt.flow_cache d
          | _ => none) = _
    by_cases hij : i = pos.row.toNat ∧ j = pos.col.toNat
    · rw [if_pos hij, if_pos ⟨hb, hij.1, hij.2⟩]
    · rw [if_neg hij, if_neg (fun hc => hij ⟨hc.2.1, hc.2.2⟩)]
  · rw [if_neg hb, if_neg (fun hc => hb hc.1)]

theorem PlacedTile.exit_congr {t1 t2 : PlacedTile} (hty : t1.type_ = t2.type_)
    (hro : t1.rotation = t2.rotation) (d : Direction) :
    t1.exit_from_entrance d = t2.exit_from_entrance d := by
  unfold PlacedTile.exit_from_entrance
  rw [hty, hro]

theorem cacheAt_floodwrite (g : Game) (pos : TilePos) (tile : PlacedTile)
    (dir exit_dir : Direction) (player : Player)
    (ht : g.tileAt? pos = some (Tile.Placed tile)) (i j : Nat) (d : Direction) :
    (g.setTile pos (Tile.Placed
        ((tile.set_flow_cache dir (some player)).set_flow_cache exit_dir
          (some player)))).cacheAt i j d =
      if i = pos.row.toNat ∧ j = pos.col.toNat ∧ (d = exit_dir ∨ d = dir) then
        some player
      else g.cacheAt i j d := by
  obtain ⟨hb, hbd⟩ := Game.tileAt?_board ht
  rw [cacheAt_setTile]
  by_cases hij : i = pos.row.toNat ∧ j = pos.col.toNat
  · rw [if_pos ⟨hb, hij.1, hij.2⟩]
    by_cases hd : d = exit_dir ∨ d = dir
    · rw [if_pos ⟨hij.1, hij.2, hd⟩]
      show ((tile.set_flow_cache dir (some player)).set_flow_cache exit_dir
        (some player)).flow_cache d = some player
      unfold PlacedTile.set_flow_cache
      rcases hd with h | h <;> simp [h]
    · rw [if_neg (fun hc => hd hc.2.2)]
      push_neg at hd
      show ((tile.set_flow_cache dir (some player)).set_flow_cache exit_dir
        (some player)).flow_cache d = g.cacheAt i j d
      unfold PlacedTile.set_flow_cache
      simp only [hd.1, hd.2, if_false]
      unfold Game.cacheAt
      rw [hij.1, hij.2, hbd]
  · rw [if_neg (fun hc => hij ⟨hc.2.1, hc.2.2⟩), if_neg (fun hc => hij ⟨hc.1, hc.2.1⟩)]

theorem floodTwoRun_comp {f h : Game → Game} (hf : FloodTwoRun f) (hh : FloodTwoRun h) :
    FloodTwoRun (fun g => h (f g)) := by
  intro g1 g2 hs
  obtain ⟨hs1, hc1⟩ := hf g1 g2 hs
  obtain ⟨hs2, hc2⟩ := hh (f g1) (f g2) hs1
  refine ⟨hs2, fun i j d => ?_⟩
  rcases hc2 i j d with h2 | ⟨h2a, h2b⟩
  · exact Or.inl h2
  · rcases hc1 i j d with h1 | ⟨h1a, h1b⟩
    · exact Or.inl (by rw [h2a, h2b, h1])
    · exact Or.inr ⟨h2a.trans h1a, h2b.trans h1b⟩

theorem write_step_tworun {g1 g2 : Game} (hs : SameShape g1 g2) (pos : TilePos)
    {tile1 tile2 : PlacedTile} (h1 : g1.tileAt? pos = some (Tile.Placed tile1))
    (h2 : g2.tileAt? pos = some (Tile.Placed tile2))
    (hty : tile1.type_ = tile2.type_) (hro : tile1.rotation = tile2.rotation)
    (dir exit_dir : Direction) (player : Player) :
    SameShape
      (g1.setTile pos (Tile.Placed
        ((tile1.set_flow_cache dir (some player)).set_flow_cache exit_dir (some player))))
      (g2.setTile pos (Tile.Placed
        ((tile2.set_flow_cache dir (some player)).set_flow_cache exit_dir (some player)))) ∧
    ∀ i j d,
      (g1.setTile pos (Tile.Placed
        ((tile1.set_flow_cache dir (some player)).set_flow_cache exit_dir
          (some player)))).cacheAt i j d =
        (g2.setTile pos (Tile.Placed
          ((tile2.set_flow_cache dir (some player)).set_flow_cache exit_dir
            (some player)))).cacheAt i j d ∨
      ((g1.setTile pos (Tile.Placed
          ((tile1.set_flow_cache dir (some player)).set_flow_cache exit_dir
            (some player)))).cacheAt i j d = g1.cacheAt i j d ∧
        (g2.setTile pos (Tile.Placed
          ((tile2.set_flow_cache dir (some player)).set_flow_cache exit_dir
            (some player)))).cacheAt i j d = g2.cacheAt i j d) := by
  constructor
  · refine setTile_shape hs pos ?_
    show Tile.Placed (⟨tile1.type_, tile1.rotation, _⟩ : PlacedTile)
      = Tile.Placed (⟨tile2.type_, tile2.rotation, _⟩ : PlacedTile)
    rw [hty, hro]
  · intro i j d
    rw [cacheAt_floodwrite g1 pos tile1 dir exit_dir player h1,
      cacheAt_floodwrite g2 pos tile2 dir exit_dir player h2]
    by_cases hcond : i = pos.row.toNat ∧ j = pos.col.toNat ∧ (d = exit_dir ∨ d = dir)
    · rw [if_pos hcond, if_pos hcond]
      exact Or.inl rfl
    · rw [if_neg hcond, if_neg hcond]
      exact Or.inr ⟨rfl, rfl⟩

theorem floodfill_tworun (player : Player) :
    ∀ (fuel : Nat) (pos : TilePos) (dir : Direction),
      FloodTwoRun (Game.floodfill_path player fuel pos dir) := by
  intro fuel
  induction fuel with
  | zero =>
    intro pos dir g1 g2 hs
    exact ⟨hs, fun _ _ _ => Or.inr ⟨rfl, rfl⟩⟩
  | succ n ih =>
    intro pos dir g1 g2 hs
    cases h1 : g1.tileAt? pos with
    | none =>
      have h2 := shape_tileAt?_none hs h1
      simp only [Game.floodfill_path, h1, h2]
      exact ⟨hs, fun _ _ _ => Or.inr (by simp)⟩
    | some t =>
      cases t with
      | NotOnBoard =>
        have h2 := shape_tileAt?_notonboard hs h1
        simp only [Game.floodfill_path, h1, h2]
        exact ⟨hs, fun _ _ _ => Or.inr (by simp)⟩
      | Empty =>
        have h2 := shape_tileAt?_empty hs h1
        simp only [Game.floodfill_path, h1, h2]
        exact ⟨hs, fun _ _ _ => Or.inr (by simp)⟩
      | Placed tile1 =>
        obtain ⟨tile2, h2, hty, hro⟩ := shape_tileAt?_placed hs h1
        simp only [Game.floodfill_path, h1, h2]
        rw [← PlacedTile.exit_congr hty hro dir]
        obtain ⟨hw1, hw2⟩ := write_step_tworun hs pos h1 h2 hty hro dir
          (tile1.exit_from_entrance dir) player
        have hadj := shape_adjacent hw1 pos (tile1.exit_from_entrance dir)
        rw [← hadj]
        cases hadjc : (g1.setTile pos (Tile.Placed
            ((tile1.set_flow_cache dir (some player)).set_flow_cache
              (tile1.exit_from_entrance dir) (some player)))).adjacent_tile pos
            (tile1.exit_from_entrance dir) with
        | BoardEdge bd => exact ⟨hw1, hw2⟩
        | Tile next_pos =>
          obtain ⟨hsn, hcn⟩ := ih next_pos (tile1.exit_from_entrance dir).reversed _ _ hw1
          refine ⟨hsn, fun i j d => ?_⟩
          rcases hcn i j d with hEq | ⟨ha, hb⟩
          · exact Or.inl hEq
          · rcases hw2 i j d with hEq1 | ⟨ha1, hb1⟩
            · exact Or.inl (by rw [ha, hb, hEq1])
            · exact Or.inr ⟨ha.trans ha1, hb.trans hb1⟩

theorem flood_slots_tworun (player : Player) (L : List (TilePos × Direction)) :
    FloodTwoRun (fun g => L.foldl
      (fun acc pr => Game.floodfill_path player floodFuel pr.1 pr.2 acc) g) := by
  induction L with
  | nil => intro g1 g2 hs; exact ⟨hs, fun _ _ _ => Or.inr ⟨rfl, rfl⟩⟩
  | cons x xs ih =>
    exact floodTwoRun_comp (floodfill_tworun player floodFuel x.1 x.2) ih

theorem flood_side_tworun (s : Fin 6) : FloodTwoRun (fun g => g.flood_side s) := by
  intro g1 g2 hs
  unfold Game.flood_side
  dsimp only
  have hsides : g2.sides s = g1.sides s := by rw [hs.2]
  rw [hsides]
  cases hcase : g1.sides s with
  | none => exact ⟨hs, fun _ _ _ => Or.inr ⟨rfl, rfl⟩⟩
  | some player =>
    have hedges : g2.edges_on_board_edge ⟨s⟩ = g1.edges_on_board_edge ⟨s⟩ := rfl
    rw [hedges]
    exact flood_slots_tworun player (g1.edges_on_board_edge ⟨s⟩) g1 g2 hs

theorem flood_sides_list_tworun (L : List (Fin 6)) :
    FloodTwoRun (fun g => g.flood_sides_list L) := by
  induction L with
  | nil => intro g1 g2 hs; exact ⟨hs, fun _ _ _ => Or.inr ⟨rfl, rfl⟩⟩
  | cons x xs ih => exact floodTwoRun_comp (flood_side_tworun x) ih

theorem setTile_shape_pres {g : Game} {pos : TilePos} {tile : PlacedTile}
    (ht : g.tileAt? pos = some (Tile.Placed tile)) (t' : PlacedTile)
    (hty : t'.type_ = tile.type_) (hro : t'.rotation = tile.rotation) :
    SameShape (g.setTile pos (Tile.Placed t')) g := by
  obtain ⟨hb, hbd⟩ := Game.tileAt?_board ht
  constructor
  · intro i j
    unfold Game.setTile
    rw [if_pos hb]
    show eraseTileCache
        (if i = pos.row.toNat ∧ j = pos.col.toNat then Tile.Placed t' else g.board i j)
      = eraseTileCache (g.board i j)
    by_cases hij : i = pos.row.toNat ∧ j = pos.col.toNat
    · rw [if_pos hij, hij.1, hij.2, hbd]
      show Tile.Placed ⟨t'.type_, t'.rotation, fun _ => none⟩
        = Tile.Placed ⟨tile.type_, tile.rotation, fun _ => none⟩
      rw [hty, hro]
    · rw [if_neg hij]
  · exact (setTile_nonboard g pos _).sides_eq

theorem floodfill_shape_pres (player : Player) :
    ∀ (fuel : Nat) (pos : TilePos) (dir : Direction) (g : Game),
      SameShape (Game.floodfill_path player fuel pos dir g) g := by
  intro fuel
  induction fuel with
  | zero => intro pos dir g; exact sameShape_refl g
  | succ n ih =>
    intro pos dir g
    cases h1 : g.tileAt? pos with
    | none =>
      simp only [Game.floodfill_path, h1]
      exact sameShape_refl g
    | some t =>
      cases t with
      | NotOnBoard =>
        simp only [Game.floodfill_path, h1]
        exact sameShape_refl g
      | Empty =>
        simp only [Game.floodfill_path, h1]
        exact sameShape_refl g
      | Placed tile =>
        simp only [Game.floodfill_path, h1]
        have hset := setTile_shape_pres h1
          ((tile.set_flow_cache dir (some player)).set_flow_cache
            (tile.exit_from_entrance dir) (some player)) rfl rfl
        cases hadjc : (g.setTile pos (Tile.Placed
            ((tile.set_flow_cache dir (some player)).set_flow_cache
              (tile.exit_from_entrance dir) (some player)))).adjacent_tile pos
            (tile.exit_from_entrance dir) with
        | BoardEdge bd => exact hset
        | Tile next_pos => exact (ih next_pos _ _).trans hset

theorem foldl_shape_pres {α : Type _} (f : Game → α → Game)
    (hf : ∀ g a, SameShape (f g a) g) :
    ∀ (l : List α) (g : Game), SameShape (l.foldl f g) g := by
  intro l
  induction l with
  | nil => intro g; exact sameShape_refl g
  | cons x xs ih => intro g; exact (ih (f g x)).trans (hf g x)

theorem flood_side_shape_pres (g : Game) (s : Fin 6) : SameShape (g.flood_side s) g := by
  unfold Game.flood_side
  cases g.sides s with
  | none => exact sameShape_refl g
  | some player =>
    exact foldl_shape_pres
      (fun acc (pr : TilePos × Direction) =>
        Game.floodfill_path player floodFuel pr.1 pr.2 acc)
      (fun g' pr => floodfill_shape_pres player floodFuel pr.1 pr.2 g') _ g

theorem flood_sides_list_shape_pres (g : Game) (L : List (Fin 6)) :
    SameShape (g.flood_sides_list L) g :=
  foldl_shape_pres Game.flood_side (fun g' s => flood_side_shape_pres g' s) L g

theorem update_outcome_board (g : Game) : g.update_outcome.board = g.board := by
  simp only [Game.update_outcome]
  split_ifs <;> rfl

theorem update_outcome_sides (g : Game) : g.update_outcome.sides = g.sides := by
  simp only [Game.update_outcome]
  split_ifs <;> rfl

theorem update_outcome_idem (g : Game) :
    g.update_outcome.update_outcome = g.update_outcome := by
  by_cases h1 : g.outcome.isSome
  · have e : g.update_outcome = g := by simp [Game.update_outcome, h1]
    rw [e]
    exact e
  · by_cases h2 : g.collect_winners.isEmpty
    · have e : g.update_outcome = g := by simp [Game.update_outcome, h1, h2]
      rw [e]
      exact e
    · have e : g.update_outcome = { g with outcome := some (GameOutcome.Victory (dedupConsec (sortNat g.collect_winners))) } := by
        simp [Game.update_outcome, h1, h2]
      rw [e]
      have hsome : ({ g with outcome := some (GameOutcome.Victory (dedupConsec (sortNat g.collect_winners))) } : Game).outcome.isSome = true := rfl
      simp [Game.update_outcome, hsome]

theorem placedTile_ext {p1 p2 : PlacedTile} (hty : p1.type_ = p2.type_)
    (hro : p1.rotation = p2.rotation)
    (hc : ∀ d, p1.flow_cache d = p2.flow_cache d) : p1 = p2 := by
  cases p1
  cases p2
  simp only [PlacedTile.mk.injEq]
  exact ⟨hty, hro, funext hc⟩

theorem game_ext {g1 g2 : Game}
    (h1 : g1.settings = g2.settings) (h2 : g1.sides = g2.sides)
    (h3 : g1.remaining_tiles = g2.remaining_tiles)
    (h4 : g1.tiles_in_hand = g2.tiles_in_hand)
    (h5 : g1.board = g2.board)
    (h6 : g1.action_history = g2.action_history)
    (h7 : g1.current_player = g2.current_player)
    (h8 : g1.outcome = g2.outcome) : g1 = g2 := by
  cases g1
  cases g2
  simp_all

theorem board_cell_eq {g1 g2 : Game} (hs : SameShape g1 g2) (i j : Nat)
    (hc : ∀ d, g1.cacheAt i j d = g2.cacheAt i j d) :
    g1.board i j = g2.board i j := by
  have he := hs.1 i j
  cases ht1 : g1.board i j with
  | NotOnBoard =>
    cases ht2 : g2.board i j with
    | NotOnBoard => rfl
    | Empty => rw [ht1, ht2] at he; simp [eraseTileCache] at he
    | Placed p2 => rw [ht1, ht2] at he; simp [eraseTileCache] at he
  | Empty =>
    cases ht2 : g2.board i j with
    | NotOnBoard => rw [ht1, ht2] at he; simp [eraseTileCache] at he
    | Empty => rfl
    | Placed p2 => rw [ht1, ht2] at he; simp [eraseTileCache] at he
  | Placed p1 =>
    cases ht2 : g2.board i j with
    | NotOnBoard => rw [ht1, ht2] at he; simp [eraseTileCache] at he
    | Empty => rw [ht1, ht2] at he; simp [eraseTileCache] at he
    | Placed p2 =>
      rw [ht1, ht2] at he
      obtain ⟨hty, hro⟩ := eraseTile_placed_inv he
      congr 1
      refine placedTile_ext hty hro ?_
      intro d
      have hcd := hc d
      simp only [Game.cacheAt, ht1, ht2] at hcd
      exact hcd

theorem game_eq_of_shape_cache_nonboard {g1 g2 : Game} (hs : SameShape g1 g2)
    (hc : ∀ i j d, g1.cacheAt i j d = g2.cacheAt i j d)
    (hnb : NonBoardEq g1 g2) : g1 = g2 :=
  game_ext hnb.settings_eq hnb.sides_eq hnb.remaining_eq hnb.hand_eq
    (funext fun i => funext fun j => board_cell_eq hs i j (fun d => hc i j d))
    hnb.history_eq hnb.current_eq hnb.outcome_eq

theorem floods_floods (g : Game) :
    (g.flood_sides_list (List.finRange 6)).flood_sides_list (List.finRange 6)
      = g.flood_sides_list (List.finRange 6) := by
  have hshape : SameShape g (g.flood_sides_list (List.finRange 6)) :=
    (flood_sides_list_shape_pres g (List.finRange 6)).symm
  obtain ⟨hs, hc⟩ := flood_sides_list_tworun (List.finRange 6) g
    (g.flood_sides_list (List.finRange 6)) hshape
  refine game_eq_of_shape_cache_nonboard hs.symm ?_
    (flood_sides_list_nonboard _ _)
  intro i j d
  rcases hc i j d with h | ⟨_, hb⟩
  · exact h.symm
  · exact hb

theorem floods_update_outcome (g : Game) :
    ((g.flood_sides_list (List.finRange 6)).update_outcome).flood_sides_list
        (List.finRange 6)
      = (g.flood_sides_list (List.finRange 6)).update_outcome := by
  have hBA : SameShape ((g.flood_sides_list (List.finRange 6)).update_outcome)
      (g.flood_sides_list (List.finRange 6)) :=
    ⟨fun i j => by rw [update_outcome_board], by rw [update_outcome_sides]⟩
  obtain ⟨hs, hc⟩ := flood_sides_list_tworun (List.finRange 6) _ _ hBA
  dsimp only at hs hc
  have hFA := floods_floods g
  rw [hFA] at hs
  have hBc : ∀ i j (d : Direction),
      ((g.flood_sides_list (List.finRange 6)).update_outcome).cacheAt i j d
        = (g.flood_sides_list (List.finRange 6)).cacheAt i j d := by
    intro i j d
    simp only [Game.cacheAt, update_outcome_board]
  refine game_eq_of_shape_cache_nonboard (hs.trans hBA.symm) ?_
    (flood_sides_list_nonboard _ _)
  intro i j d
  rcases hc i j d with h | ⟨hb, _⟩
  · rw [h, hFA]
    exact (hBc i j d).symm
  · exact hb

/-- C8: recompute_flows is idempotent: a second call in a row changes
nothing at all (in particular the flow caches and the outcome are those of
the single call). -/
theorem c8_recompute_flows_idempotent : ∀ g : Game,
    g.recompute_flows.recompute_flows = g.recompute_flows := by
  intro g
  show (((g.flood_sides_list (List.finRange 6)).update_outcome).flood_sides_list
      (List.finRange 6)).update_outcome
    = (g.flood_sides_list (List.finRange 6)).update_outcome
  rw [floods_update_outcome g]
  exact update_outcome_idem _

end Flows
